import Mathlib

/-!
Verification of the starfish tile-metadata registry
(`starfish/imagestack/tileset/_tile_metadata.py`) and of the labeled-dataset
persistence contract exercised by
`starfish/test/intensity_table/test_intensity_table_serialization.py`.

The Python module is shallowly embedded: Python `int` is `Int`, Python `dict`
is an association list with Python's insert-or-overwrite and first-match
lookup semantics, a raised `KeyError` is `Except.error`.
-/

namespace Starfish

/-- Embeds the dimension identifiers `Indices.ROUND`, `Indices.CH`,
`Indices.Z` (plus the spatial ones) from `starfish.types`. -/
inductive Indices where
  | ROUND
  | CH
  | Z
  | Y
  | X
deriving DecidableEq, Repr

/-- Embeds `TileMetadataKey`: the immutable composite key over
`round`, `ch`, `z` (`_tile_metadata.py`, lines 12-43). -/
structure TileMetadataKey where
  round : Int
  ch : Int
  z : Int
deriving DecidableEq, Repr

/-- The universe of Python objects a key can be compared against: a
`TileMetadataKey` instance or some non-key object (tuple, int, string,
None). -/
inductive PyObj where
  | key (k : TileMetadataKey)
  | tuple (xs : List Int)
  | int (n : Int)
  | str (s : String)
  | none
deriving DecidableEq, Repr

/-- Embeds `TileMetadataKey.__eq__` (lines 33-37): `isinstance` check first,
then field-by-field comparison; any non-key compares unequal, and the
method is total (it never raises). -/
def TileMetadataKey.eq (self : TileMetadataKey) (other : PyObj) : Bool :=
  match other with
  | .key k => self.round == k.round && self.ch == k.ch && self.z == k.z
  | _ => false

/-- Embeds `TileMetadataKey.__hash__` (lines 39-40):
`self._round ^ self._ch ^ self._z`, the left-associated bitwise XOR of the
three fields on Python's arbitrary-precision integers. -/
def TileMetadataKey.hash (self : TileMetadataKey) : Int :=
  Int.xor (Int.xor self.round self.ch) self.z

/-- Embeds a `KeyError` raised by a Python mapping access. -/
inductive PyError where
  | keyError (msg : String)
deriving DecidableEq, Repr

/-- A tile as the registry sees it: a coordinate-index mapping (a Python
dict keyed by `Indices`) plus an opaque extras payload. -/
structure Tile (α : Type) where
  indices : List (Indices × Int)
  extras : α

/-- A tile collection: an iterable of tiles plus collection-level extras
(the `slicedimage.TileSet` surface used by the registry). -/
structure TileSet (α β : Type) where
  tiles : List (Tile α)
  extras : β

/-- First-match lookup in a coordinate-index mapping: embeds
`tile.indices[i]` returning `none` where Python raises `KeyError`. -/
def idxLookup (i : Indices) : List (Indices × Int) → Option Int
  | [] => Option.none
  | (j, v) :: rest => if j == i then some v else idxLookup i rest

/-- Embeds a Python dict insertion `d[k] = v`: overwrite the value of the
first (unique) entry whose key equals `k`, keeping the original key object
and its position, or append a fresh entry at the end. -/
def dictInsert {α : Type} (k : TileMetadataKey) (v : α) :
    List (TileMetadataKey × α) → List (TileMetadataKey × α)
  | [] => [(k, v)]
  | (k0, v0) :: rest =>
    if k0.eq (.key k) then (k0, v) :: rest
    else (k0, v0) :: dictInsert k v rest

/-- Embeds a Python dict access `d[obj]`: return the value of the first
entry whose key compares equal to the probe object under
`TileMetadataKey.__eq__`, or `none` where Python raises `KeyError`. -/
def dictFind {α : Type} (obj : PyObj) : List (TileMetadataKey × α) → Option α
  | [] => Option.none
  | (k0, v0) :: rest => if k0.eq obj then some v0 else dictFind obj rest

/-- Embeds the per-tile work of `TileSetMetadata.__init__` (lines 53-58):
read `round` and `ch` (raising `KeyError` if absent), read `z` with default
0, and form the `TileMetadataKey`. -/
def tileKey {α : Type} (t : Tile α) : Except PyError TileMetadataKey :=
  match idxLookup .ROUND t.indices with
  | Option.none => .error (.keyError "Indices.ROUND")
  | some r =>
    match idxLookup .CH t.indices with
    | Option.none => .error (.keyError "Indices.CH")
    | some c => .ok ⟨r, c, (idxLookup .Z t.indices).getD 0⟩

/-- The keys of every tile in order; errors on the first tile missing a
required index, exactly as the construction loop does. -/
def tileKeys {α : Type} : List (Tile α) → Except PyError (List TileMetadataKey)
  | [] => .ok []
  | t :: rest =>
    match tileKey t with
    | .error e => .error e
    | .ok k =>
      match tileKeys rest with
      | .error e => .error e
      | .ok ks => .ok (k :: ks)

/-- The construction loop of `TileSetMetadata.__init__` over the remaining
tiles, carrying the dict built so far. -/
def buildEntries {α : Type} : List (Tile α) → List (TileMetadataKey × α) →
    Except PyError (List (TileMetadataKey × α))
  | [], acc => .ok acc
  | t :: rest, acc =>
    match tileKey t with
    | .error e => .error e
    | .ok k => buildEntries rest (dictInsert k t.extras acc)

/-- Embeds the `TileSetMetadata` object: the tile-extras dict and the
collection-level extras. -/
structure TileSetMetadata (α β : Type) where
  tile_extras : List (TileMetadataKey × α)
  extras : β

/-- Embeds `TileSetMetadata.__init__` (lines 51-61) as a whole: iterate the
tiles building the dict, then retain `tileset.extras`; a missing required
index aborts the whole construction with the `KeyError`. -/
def TileSetMetadata.build {α β : Type} (ts : TileSet α β) :
    Except PyError (TileSetMetadata α β) :=
  match buildEntries ts.tiles [] with
  | .error e => .error e
  | .ok d => .ok ⟨d, ts.extras⟩

/-- Embeds `TileSetMetadata.__getitem__` (lines 63-65):
`self.tile_extras[tilekey]`, raising `KeyError` when no stored key compares
equal to the probe. -/
def TileSetMetadata.getitem {α β : Type} (m : TileSetMetadata α β)
    (obj : PyObj) : Except PyError α :=
  match dictFind obj m.tile_extras with
  | some v => .ok v
  | Option.none => .error (.keyError "key not found")

/-- Embeds `TileSetMetadata.keys` (lines 67-69). -/
def TileSetMetadata.keys {α β : Type} (m : TileSetMetadata α β) :
    List TileMetadataKey :=
  m.tile_extras.map Prod.fst

/-- The extras payload of the last tile in the list whose key is `k`, if
any; used to state last-write-wins. -/
def lastKeyExtras {α : Type} (k : TileMetadataKey) : List (Tile α) → Option α
  | [] => Option.none
  | t :: rest =>
    match lastKeyExtras k rest with
    | some v => some v
    | Option.none =>
      match tileKey t with
      | .ok k0 => if k0 = k then some t.extras else Option.none
      | .error _ => Option.none

/-- Modelled from the spec: the Labeled Multidimensional Dataset of §3
(the `IntensityTable` produced by `IntensityTable.from_image_stack`, whose
implementation is not part of the shown sources): a numeric array with its
shape and dtype, named axes, named coordinate label arrays (each with its
attached dimensions and values), and collection-level attributes. The
array values are produced purely by copy/storage, so their carrier is
embedded as exact numerals. -/
structure Dataset where
  dims : List String
  shape : List Nat
  dtype : String
  data : List Int
  coords : List (String × (List String × List Int))
  attrs : List (String × String)
deriving DecidableEq, Repr

/-- Modelled from the spec: the equivalence relation of §4.3 that
`IntensityTable.equals` decides — identical array shape and dtype,
identical axis names, numerically identical values at every index,
identical coordinate label arrays (names, dimensions, values), identical
attributes. -/
def Dataset.equiv (a b : Dataset) : Bool :=
  a.shape == b.shape && a.dtype == b.dtype && a.dims == b.dims &&
    a.data == b.data && a.coords == b.coords && a.attrs == b.attrs

/-- Modelled from the spec: the file system seen by `save`/`load` — a map
from paths to the self-describing containers written so far. -/
def FileStore : Type := List (String × Dataset)

/-- Modelled from the spec: errors of §7 that `load` can surface —
the path is missing, or the file is present but not a valid container. -/
inductive PersistError where
  | notFound (path : String)
  | corruptContainer (path : String)
deriving DecidableEq, Repr

/-- Overwrite-or-append insertion into the file store: `save` to an
existing path replaces its content. -/
def storeInsert (path : String) (d : Dataset) : FileStore → FileStore
  | [] => [(path, d)]
  | (p, c) :: rest =>
    if p == path then (p, d) :: rest else (p, c) :: storeInsert path d rest

/-- First-match lookup in the file store. -/
def storeFind (path : String) : FileStore → Option Dataset
  | [] => Option.none
  | (p, c) :: rest => if p == path then some c else storeFind path rest

/-- Modelled from the spec: `IntensityTable.save` (§4.3) — write the
dataset's array, coordinate label arrays, axis names and attributes to a
single container file at `path`, overwriting if it exists. The in-memory
dataset is not mutated (the store is the only thing that changes). -/
def save (d : Dataset) (path : String) (fs : FileStore) : FileStore :=
  storeInsert path d fs

/-- Modelled from the spec: `IntensityTable.load` (§4.3) — reconstruct a
dataset from the container at `path`, failing with a not-found error when
the path is missing. -/
def load (path : String) (fs : FileStore) : Except PersistError Dataset :=
  match storeFind path fs with
  | some d => .ok d
  | Option.none => .error (.notFound path)

/-- Modelled from the spec: the canonical dataset of the serialization
test — the intensity table built from a zero-filled float32 array of shape
(1, 5, 2, 2, 5), with its per-feature coordinate label arrays and no
attributes. -/
def testDataset : Dataset :=
  { dims := ["features", "r", "c", "y", "x"]
    shape := [1, 5, 2, 2, 5]
    dtype := "float32"
    data := List.replicate 100 0
    coords := [("x", (["features"], [1])), ("y", (["features"], [1])),
               ("z", (["features"], [0])), ("r", (["features"], [1]))]
    attrs := [] }

/-! ### Helper lemmas about key equality -/

theorem eq_key_iff (k0 k : TileMetadataKey) : k0.eq (.key k) = true ↔ k0 = k := by
  obtain ⟨a, b, c⟩ := k0
  obtain ⟨d, e, f⟩ := k
  simp [TileMetadataKey.eq, and_assoc]

theorem eq_key_self (k : TileMetadataKey) : k.eq (.key k) = true :=
  (eq_key_iff k k).mpr rfl

theorem eq_key_ne (k0 k : TileMetadataKey) (h : k0 ≠ k) : k0.eq (.key k) = false := by
  cases hb : k0.eq (.key k)
  · rfl
  · exact absurd ((eq_key_iff k0 k).mp hb) h

theorem eq_nonkey (k0 : TileMetadataKey) (obj : PyObj)
    (h : ∀ k : TileMetadataKey, obj ≠ .key k) : k0.eq obj = false := by
  cases obj with
  | key k => exact absurd rfl (h k)
  | tuple xs => rfl
  | int n => rfl
  | str s => rfl
  | none => rfl

/-! ### Helper lemmas about the dict embedding -/

theorem dictFind_nonkey {α : Type} (obj : PyObj) (d : List (TileMetadataKey × α))
    (h : ∀ k : TileMetadataKey, obj ≠ .key k) : dictFind obj d = Option.none := by
  induction d with
  | nil => rfl
  | cons p rest ih =>
    obtain ⟨k0, v0⟩ := p
    simp [dictFind, eq_nonkey k0 obj h, ih]

theorem dictFind_absent {α : Type} (k : TileMetadataKey) (d : List (TileMetadataKey × α))
    (h : ∀ p ∈ d, p.1 ≠ k) : dictFind (.key k) d = Option.none := by
  induction d with
  | nil => rfl
  | cons p rest ih =>
    obtain ⟨k0, v0⟩ := p
    have hk0 : k0 ≠ k := h (k0, v0) (List.mem_cons_self _ _)
    simp [dictFind, eq_key_ne k0 k hk0]
    exact ih fun p hp => h p (List.mem_cons_of_mem _ hp)

theorem dictFind_some_mem {α : Type} (k : TileMetadataKey) (v : α)
    (d : List (TileMetadataKey × α)) (h : dictFind (.key k) d = some v) :
    ∃ p ∈ d, p.1 = k := by
  induction d with
  | nil => simp [dictFind] at h
  | cons p rest ih =>
    obtain ⟨k0, v0⟩ := p
    by_cases h0 : k0 = k
    · exact ⟨(k0, v0), List.mem_cons_self _ _, h0⟩
    · rw [dictFind, eq_key_ne k0 k h0] at h
      simp at h
      obtain ⟨p, hp, hpk⟩ := ih h
      exact ⟨p, List.mem_cons_of_mem _ hp, hpk⟩

theorem dictFind_insert_self {α : Type} (k : TileMetadataKey) (v : α)
    (d : List (TileMetadataKey × α)) :
    dictFind (.key k) (dictInsert k v d) = some v := by
  induction d with
  | nil => simp [dictInsert, dictFind, eq_key_self]
  | cons p rest ih =>
    obtain ⟨k1, v1⟩ := p
    cases h1 : k1.eq (.key k)
    · simp [dictInsert, dictFind, h1, ih]
    · simp [dictInsert, dictFind, h1]

theorem dictFind_insert_ne {α : Type} (k k0 : TileMetadataKey) (v : α)
    (d : List (TileMetadataKey × α)) (h : k0 ≠ k) :
    dictFind (.key k) (dictInsert k0 v d) = dictFind (.key k) d := by
  induction d with
  | nil => simp [dictInsert, dictFind, eq_key_ne k0 k h]
  | cons p rest ih =>
    obtain ⟨k1, v1⟩ := p
    cases h1 : k1.eq (.key k0)
    · simp [dictInsert, dictFind, h1, ih]
    · have hk : k1 = k0 := (eq_key_iff k1 k0).mp h1
      subst hk
      simp [dictInsert, dictFind, h1, eq_key_ne k1 k h]

theorem mem_keys_insert_self {α : Type} (k : TileMetadataKey) (v : α)
    (d : List (TileMetadataKey × α)) :
    k ∈ (dictInsert k v d).map Prod.fst := by
  induction d with
  | nil => simp [dictInsert]
  | cons p rest ih =>
    obtain ⟨k1, v1⟩ := p
    cases h1 : k1.eq (.key k)
    · simp [dictInsert, h1]
      exact Or.inr (by simpa using ih)
    · have hk : k1 = k := (eq_key_iff k1 k).mp h1
      subst hk
      simp [dictInsert, eq_key_self]

theorem mem_keys_insert_mono {α : Type} (k k0 : TileMetadataKey) (v : α)
    (d : List (TileMetadataKey × α)) (h : k ∈ d.map Prod.fst) :
    k ∈ (dictInsert k0 v d).map Prod.fst := by
  induction d with
  | nil => simp at h
  | cons p rest ih =>
    obtain ⟨k1, v1⟩ := p
    simp at h
    cases h1 : k1.eq (.key k0)
    · rcases h with h | h
      · simp [dictInsert, h1, h]
      · simp [dictInsert, h1]
        exact Or.inr (by simpa using ih (by simpa using h))
    · rcases h with h | h
      · simp [dictInsert, h1, h]
      · simp [dictInsert, h1]
        exact Or.inr (by simpa using h)

theorem dictInsert_fresh {α : Type} (k : TileMetadataKey) (v : α)
    (d : List (TileMetadataKey × α)) (h : ∀ p ∈ d, p.1 ≠ k) :
    dictInsert k v d = d ++ [(k, v)] := by
  induction d with
  | nil => rfl
  | cons p rest ih =>
    obtain ⟨k1, v1⟩ := p
    have hk1 : k1 ≠ k := h (k1, v1) (List.mem_cons_self _ _)
    simp [dictInsert, eq_key_ne k1 k hk1]
    exact ih fun p hp => h p (List.mem_cons_of_mem _ hp)

/-! ### Helper lemmas about the construction loop -/

theorem buildEntries_keys_mono {α : Type} (tiles : List (Tile α)) :
    ∀ acc d : List (TileMetadataKey × α), ∀ k : TileMetadataKey,
      buildEntries tiles acc = .ok d → k ∈ acc.map Prod.fst →
        k ∈ d.map Prod.fst := by
  induction tiles with
  | nil =>
    intro acc d k hb hk
    simp [buildEntries] at hb
    exact hb ▸ hk
  | cons t rest ih =>
    intro acc d k hb hk
    rw [buildEntries] at hb
    cases htk : tileKey t with
    | error e => rw [htk] at hb; exact absurd hb (by simp)
    | ok k0 =>
      rw [htk] at hb
      exact ih _ _ _ hb (mem_keys_insert_mono k k0 t.extras acc hk)

theorem buildEntries_mem_of_tile {α : Type} (tiles : List (Tile α)) :
    ∀ acc d : List (TileMetadataKey × α), ∀ t : Tile α, ∀ k : TileMetadataKey,
      buildEntries tiles acc = .ok d → t ∈ tiles → tileKey t = .ok k →
        k ∈ d.map Prod.fst := by
  induction tiles with
  | nil => intro acc d t k _ hmem; simp at hmem
  | cons t0 rest ih =>
    intro acc d t k hb hmem htk
    rw [buildEntries] at hb
    cases ht0 : tileKey t0 with
    | error e => rw [ht0] at hb; exact absurd hb (by simp)
    | ok k0 =>
      rw [ht0] at hb
      rcases List.mem_cons.mp hmem with h | h
      · subst h
        have hkk : k0 = k := by rw [ht0] at htk; exact (Except.ok.inj htk)
        subst hkk
        exact buildEntries_keys_mono rest _ d k0 hb
          (mem_keys_insert_self k0 t.extras acc)
      · exact ih _ _ _ _ hb h htk

theorem tileKeys_length {α : Type} (tiles : List (Tile α)) :
    ∀ ks : List TileMetadataKey, tileKeys tiles = .ok ks →
      ks.length = tiles.length := by
  induction tiles with
  | nil => intro ks h; simp [tileKeys] at h; simp [← h]
  | cons t rest ih =>
    intro ks h
    rw [tileKeys] at h
    cases htk : tileKey t with
    | error e => rw [htk] at h; exact absurd h (by simp)
    | ok k =>
      rw [htk] at h
      cases hks : tileKeys rest with
      | error e => rw [hks] at h; exact absurd h (by simp)
      | ok ks2 =>
        rw [hks] at h
        have : k :: ks2 = ks := Except.ok.inj h
        subst this
        simp [ih ks2 hks]

theorem buildEntries_complete {α : Type} (tiles : List (Tile α)) :
    ∀ ks : List TileMetadataKey, ∀ acc : List (TileMetadataKey × α),
      tileKeys tiles = .ok ks →
      (acc.map Prod.fst ++ ks).Pairwise (· ≠ ·) →
      ∃ d, buildEntries tiles acc = .ok d ∧
        d.map Prod.fst = acc.map Prod.fst ++ ks := by
  induction tiles with
  | nil =>
    intro ks acc hks _
    simp [tileKeys] at hks
    exact ⟨acc, rfl, by simp [← hks]⟩
  | cons t rest ih =>
    intro ks acc hks hdist
    rw [tileKeys] at hks
    cases htk : tileKey t with
    | error e => rw [htk] at hks; exact absurd hks (by simp)
    | ok k =>
      rw [htk] at hks
      cases hrest : tileKeys rest with
      | error e => rw [hrest] at hks; exact absurd hks (by simp)
      | ok ks2 =>
        rw [hrest] at hks
        have hkse : k :: ks2 = ks := Except.ok.inj hks
        subst hkse
        have hfresh : ∀ p ∈ acc, p.1 ≠ k := by
          intro p hp
          have hmem : p.1 ∈ acc.map Prod.fst := List.mem_map_of_mem Prod.fst hp
          have := (List.pairwise_append.mp hdist).2.2 p.1 hmem k
            (List.mem_cons_self _ _)
          exact this
        have hins : dictInsert k t.extras acc = acc ++ [(k, t.extras)] :=
          dictInsert_fresh k t.extras acc hfresh
        have hdist2 : ((dictInsert k t.extras acc).map Prod.fst ++ ks2).Pairwise
            (· ≠ ·) := by
          rw [hins]
          simpa [List.append_assoc] using hdist
        obtain ⟨d, hd, hdk⟩ := ih ks2 (dictInsert k t.extras acc) hrest hdist2
        refine ⟨d, ?_, ?_⟩
        · rw [buildEntries, htk]; exact hd
        · rw [hdk, hins]; simp

theorem tileKeys_build_ok {α : Type} (tiles : List (Tile α)) :
    ∀ ks : List TileMetadataKey, ∀ acc : List (TileMetadataKey × α),
      tileKeys tiles = .ok ks →
      ∃ d, buildEntries tiles acc = .ok d := by
  induction tiles with
  | nil => intro ks acc _; exact ⟨acc, rfl⟩
  | cons t rest ih =>
    intro ks acc hks
    rw [tileKeys] at hks
    cases htk : tileKey t with
    | error e => rw [htk] at hks; exact absurd hks (by simp)
    | ok k =>
      rw [htk] at hks
      cases hrest : tileKeys rest with
      | error e => rw [hrest] at hks; exact absurd hks (by simp)
      | ok ks2 =>
        obtain ⟨d, hd⟩ := ih ks2 (dictInsert k t.extras acc) hrest
        exact ⟨d, by rw [buildEntries, htk]; exact hd⟩

theorem dictFind_buildEntries {α : Type} (tiles : List (Tile α)) :
    ∀ acc d : List (TileMetadataKey × α), ∀ k : TileMetadataKey,
      buildEntries tiles acc = .ok d →
      dictFind (.key k) d =
        match lastKeyExtras k tiles with
        | some v => some v
        | Option.none => dictFind (.key k) acc := by
  induction tiles with
  | nil =>
    intro acc d k hb
    simp [buildEntries] at hb
    simp [lastKeyExtras, ← hb]
  | cons t rest ih =>
    intro acc d k hb
    rw [buildEntries] at hb
    cases htk : tileKey t with
    | error e => rw [htk] at hb; exact absurd hb (by simp)
    | ok k0 =>
      rw [htk] at hb
      have hrec := ih (dictInsert k0 t.extras acc) d k hb
      cases hlast : lastKeyExtras k (α := α) rest with
      | some v => simp [lastKeyExtras, hlast, hlast ▸ hrec]
      | none =>
        rw [hlast] at hrec
        by_cases hk0 : k0 = k
        · subst hk0
          simp [lastKeyExtras, hlast, htk, hrec, dictFind_insert_self]
        · simp [lastKeyExtras, hlast, htk, hk0, hrec,
            dictFind_insert_ne k k0 t.extras acc hk0]

theorem lastKeyExtras_append {α : Type} (k : TileMetadataKey)
    (l1 l2 : List (Tile α)) :
    lastKeyExtras k (l1 ++ l2) =
      match lastKeyExtras k l2 with
      | some v => some v
      | Option.none => lastKeyExtras k l1 := by
  induction l1 with
  | nil =>
    cases h2 : lastKeyExtras k (α := α) l2 <;> simp [lastKeyExtras, h2]
  | cons t rest ih =>
    rw [List.cons_append, lastKeyExtras, ih]
    cases h2 : lastKeyExtras k (α := α) l2 with
    | some v => simp [lastKeyExtras]
    | none => rw [lastKeyExtras]

theorem lastKeyExtras_none {α : Type} (k : TileMetadataKey) (l : List (Tile α))
    (h : ∀ t ∈ l, ∀ k2 : TileMetadataKey, tileKey t = .ok k2 → k2 ≠ k) :
    lastKeyExtras k l = Option.none := by
  induction l with
  | nil => rfl
  | cons t rest ih =>
    rw [lastKeyExtras, ih fun t2 ht2 => h t2 (List.mem_cons_of_mem _ ht2)]
    cases htk : tileKey t with
    | error e => rfl
    | ok k2 =>
      have : k2 ≠ k := h t (List.mem_cons_self _ _) k2 htk
      simp [this]

/-! ### Helper lemmas about the file store -/

theorem storeFind_insert_self (path : String) (d : Dataset) (fs : FileStore) :
    storeFind path (storeInsert path d fs) = some d := by
  induction fs with
  | nil => simp [storeInsert, storeFind]
  | cons p rest ih =>
    obtain ⟨p0, c0⟩ := p
    cases h0 : (p0 == path)
    · simp [storeInsert, storeFind, h0, ih]
    · simp [storeInsert, storeFind, h0]

theorem datasetEquiv_refl (d : Dataset) : Dataset.equiv d d = true := by
  simp [Dataset.equiv]

/-! ### XOR algebra on Python integers -/

theorem intXor_comm (m n : Int) : Int.xor m n = Int.xor n m := by
  cases m <;> cases n <;> simp [Int.xor, Nat.xor_comm]

theorem intXor_assoc (m n p : Int) :
    Int.xor (Int.xor m n) p = Int.xor m (Int.xor n p) := by
  cases m <;> cases n <;> cases p <;> simp [Int.xor, Nat.xor_assoc]

/-! ### The claims -/

/-- C2: for all integers r, c, z, two independently constructed keys with
the same (r, c, z) are equal (in both directions) and have equal hash
values; equality between a key and any non-key object is false, and the
embedded `__eq__` is a total function, so it never raises. -/
theorem key_eq_hash_law (k1 k2 : TileMetadataKey) (obj : PyObj)
    (hr : k1.round = k2.round) (hc : k1.ch = k2.ch) (hz : k1.z = k2.z)
    (hobj : ∀ k : TileMetadataKey, obj ≠ .key k) :
    k1.eq (.key k2) = true ∧ k2.eq (.key k1) = true ∧
      k1.hash = k2.hash ∧ k1.eq obj = false := by
  obtain ⟨a, b, c⟩ := k1
  obtain ⟨d, e, f⟩ := k2
  simp only at hr hc hz
  subst hr; subst hc; subst hz
  exact ⟨eq_key_self _, eq_key_self _, rfl, eq_nonkey _ obj hobj⟩

/-- C2 witness: the keys (3, 4, 5) and (3, 4, 5), built independently, are
equal with equal hashes, and the key is unequal to the tuple (3, 4, 5). -/
theorem key_eq_hash_law_witness :
    TileMetadataKey.eq ⟨3, 4, 5⟩ (.key ⟨3, 4, 5⟩) = true ∧
      TileMetadataKey.eq ⟨3, 4, 5⟩ (.key ⟨3, 4, 5⟩) = true ∧
      TileMetadataKey.hash ⟨3, 4, 5⟩ = TileMetadataKey.hash ⟨3, 4, 5⟩ ∧
      TileMetadataKey.eq ⟨3, 4, 5⟩ (.tuple [3, 4, 5]) = false :=
  key_eq_hash_law ⟨3, 4, 5⟩ ⟨3, 4, 5⟩ (.tuple [3, 4, 5]) rfl rfl rfl
    (fun k h => PyObj.noConfusion h)

/-- C9: the hash of a key is exactly the left-associated bitwise XOR of its
three fields; hence the hash is invariant under permuting the fields, and
the unequal keys (1, 0, 0) and (0, 1, 0) collide. -/
theorem hash_is_field_xor :
    (∀ k : TileMetadataKey, k.hash = Int.xor (Int.xor k.round k.ch) k.z) ∧
      (∀ r c z : Int,
        TileMetadataKey.hash ⟨r, c, z⟩ = TileMetadataKey.hash ⟨c, r, z⟩ ∧
          TileMetadataKey.hash ⟨r, c, z⟩ = TileMetadataKey.hash ⟨r, z, c⟩) ∧
      TileMetadataKey.eq ⟨1, 0, 0⟩ (.key ⟨0, 1, 0⟩) = false ∧
      TileMetadataKey.hash ⟨1, 0, 0⟩ = TileMetadataKey.hash ⟨0, 1, 0⟩ := by
  refine ⟨fun k => rfl, fun r c z => ⟨?_, ?_⟩, by decide, by decide⟩
  · simp [TileMetadataKey.hash, intXor_comm r c]
  · simp [TileMetadataKey.hash, intXor_assoc, intXor_comm c z]

/-- C10: looking a non-key object up in any registry fails with a KeyError,
even when a key with the same field values is registered, because
`TileMetadataKey.__eq__` rejects every non-key object. -/
theorem getitem_nonkey {α β : Type} (reg : TileSetMetadata α β) (obj : PyObj)
    (hobj : ∀ k : TileMetadataKey, obj ≠ .key k) :
    reg.getitem obj = .error (.keyError "key not found") := by
  rw [TileSetMetadata.getitem, dictFind_nonkey obj reg.tile_extras hobj]

/-- C10 witness: a registry holding the key (1, 2, 3) still fails when
probed with the plain tuple (1, 2, 3). -/
theorem getitem_nonkey_witness :
    TileSetMetadata.getitem
        (⟨[(⟨1, 2, 3⟩, 7)], 0⟩ : TileSetMetadata Nat Nat)
        (.tuple [1, 2, 3]) =
      .error (.keyError "key not found") :=
  getitem_nonkey ⟨[(⟨1, 2, 3⟩, 7)], 0⟩ (.tuple [1, 2, 3])
    (fun k h => PyObj.noConfusion h)

/-- C8: a successfully built registry retains, through its `extras`
accessor, exactly the collection-level payload the tile collection exposed
at construction time. -/
theorem extras_passthrough {α β : Type} (ts : TileSet α β)
    (reg : TileSetMetadata α β) (h : TileSetMetadata.build ts = .ok reg) :
    reg.extras = ts.extras := by
  rw [TileSetMetadata.build] at h
  cases hb : buildEntries ts.tiles ([] : List (TileMetadataKey × α)) with
  | error e => rw [hb] at h; exact absurd h (by simp)
  | ok d =>
    rw [hb] at h
    have : (⟨d, ts.extras⟩ : TileSetMetadata α β) = reg := Except.ok.inj h
    rw [← this]

/-- C8 witness: a one-tile collection with collection extras 9 yields a
registry whose `extras` accessor returns 9. -/
theorem extras_passthrough_witness :
    (⟨[(⟨0, 0, 0⟩, 42)], 9⟩ : TileSetMetadata Nat Nat).extras =
      (⟨[⟨[(.ROUND, 0), (.CH, 0)], 42⟩], 9⟩ : TileSet Nat Nat).extras :=
  extras_passthrough ⟨[⟨[(.ROUND, 0), (.CH, 0)], 42⟩], 9⟩
    ⟨[(⟨0, 0, 0⟩, 42)], 9⟩ rfl

/-- C4: on a built registry, looking up a key under which no tile was
registered fails with a KeyError, and a successful lookup happens only when
the probe exactly matches a registered key in all three fields. -/
theorem lookup_failure {α β : Type} (ts : TileSet α β)
    (reg : TileSetMetadata α β) (k : TileMetadataKey)
    (hbuild : TileSetMetadata.build ts = .ok reg)
    (habsent : ∀ p ∈ reg.tile_extras, p.1 ≠ k) :
    reg.getitem (.key k) = .error (.keyError "key not found") ∧
      ∀ kk : TileMetadataKey, ∀ v : α,
        reg.getitem (.key kk) = .ok v → ∃ p ∈ reg.tile_extras, p.1 = kk := by
  constructor
  · rw [TileSetMetadata.getitem, dictFind_absent k reg.tile_extras habsent]
  · intro kk v hv
    rw [TileSetMetadata.getitem] at hv
    cases hf : dictFind (.key kk) reg.tile_extras with
    | none => rw [hf] at hv; exact absurd hv (by simp)
    | some v2 => exact dictFind_some_mem kk v2 reg.tile_extras hf

/-- C4 witness: the registry built from one tile at (0, 0, 0) fails on the
lookup of the never-registered key (9, 9, 9). -/
theorem lookup_failure_witness :
    TileSetMetadata.getitem
        (⟨[(⟨0, 0, 0⟩, 5)], 1⟩ : TileSetMetadata Nat Nat) (.key ⟨9, 9, 9⟩) =
      .error (.keyError "key not found") ∧
      ∀ kk : TileMetadataKey, ∀ v : Nat,
        TileSetMetadata.getitem
            (⟨[(⟨0, 0, 0⟩, 5)], 1⟩ : TileSetMetadata Nat Nat) (.key kk) =
          .ok v →
        ∃ p ∈ (⟨[(⟨0, 0, 0⟩, 5)], 1⟩ :
            TileSetMetadata Nat Nat).tile_extras, p.1 = kk :=
  lookup_failure ⟨[⟨[(.ROUND, 0), (.CH, 0)], 5⟩], 1⟩ ⟨[(⟨0, 0, 0⟩, 5)], 1⟩
    ⟨9, 9, 9⟩ rfl (by decide)

/-- C3 helper: the construction loop errors whenever some remaining tile
lacks a required index. -/
theorem buildEntries_error_of_missing {α : Type} (tiles : List (Tile α)) :
    ∀ acc : List (TileMetadataKey × α),
      (∃ t ∈ tiles, idxLookup .ROUND t.indices = Option.none ∨
        idxLookup .CH t.indices = Option.none) →
      ∃ msg, buildEntries tiles acc = .error (.keyError msg) := by
  induction tiles with
  | nil => intro acc h; simp at h
  | cons t0 rest ih =>
    intro acc h
    cases ht0 : tileKey t0 with
    | error e =>
      obtain ⟨msg⟩ := e
      exact ⟨msg, by rw [buildEntries, ht0]⟩
    | ok k =>
      obtain ⟨t, hmem, hbad⟩ := h
      rcases List.mem_cons.mp hmem with heq | hmem2
      · subst heq
        rw [tileKey] at ht0
        cases hr : idxLookup .ROUND t.indices with
        | none => rw [hr] at ht0; exact absurd ht0 (by simp)
        | some r =>
          rw [hr] at ht0
          cases hc : idxLookup .CH t.indices with
          | none => rw [hc] at ht0; exact absurd ht0 (by simp)
          | some c =>
            rcases hbad with hbad | hbad
            · rw [hr] at hbad; exact absurd hbad (by simp)
            · rw [hc] at hbad; exact absurd hbad (by simp)
      · obtain ⟨msg, hmsg⟩ := ih (dictInsert k t0.extras acc) ⟨t, hmem2, hbad⟩
        exact ⟨msg, by rw [buildEntries, ht0]; exact hmsg⟩

/-- C3: if any tile of the collection lacks the round or the channel index,
the whole registry construction fails with a KeyError and no registry
object is ever produced. -/
theorem build_fail_fast {α β : Type} (ts : TileSet α β)
    (h : ∃ t ∈ ts.tiles, idxLookup .ROUND t.indices = Option.none ∨
      idxLookup .CH t.indices = Option.none) :
    (∃ msg, TileSetMetadata.build ts = .error (.keyError msg)) ∧
      ∀ reg : TileSetMetadata α β, TileSetMetadata.build ts ≠ .ok reg := by
  obtain ⟨msg, hmsg⟩ := buildEntries_error_of_missing ts.tiles [] h
  refine ⟨⟨msg, ?_⟩, ?_⟩
  · rw [TileSetMetadata.build, hmsg]
  · intro reg hok
    rw [TileSetMetadata.build, hmsg] at hok
    exact absurd hok (by simp)

/-- C3 witness: a two-tile collection whose second tile lacks the channel
index fails to build. -/
theorem build_fail_fast_witness :
    (∃ msg, TileSetMetadata.build
        (⟨[⟨[(.ROUND, 0), (.CH, 0)], 1⟩, ⟨[(.ROUND, 1)], 2⟩], 0⟩ :
          TileSet Nat Nat) = .error (.keyError msg)) ∧
      ∀ reg : TileSetMetadata Nat Nat,
        TileSetMetadata.build
            (⟨[⟨[(.ROUND, 0), (.CH, 0)], 1⟩, ⟨[(.ROUND, 1)], 2⟩], 0⟩ :
              TileSet Nat Nat) ≠ .ok reg :=
  build_fail_fast ⟨[⟨[(.ROUND, 0), (.CH, 0)], 1⟩, ⟨[(.ROUND, 1)], 2⟩], 0⟩
    ⟨⟨[(.ROUND, 1)], 2⟩, by simp, Or.inr rfl⟩

/-- C6: a tile carrying round and channel but no z index gets the key
(round, channel, 0), and that key is registered in any successfully built
registry containing the tile. -/
theorem default_z {α β : Type} (ts : TileSet α β) (reg : TileSetMetadata α β)
    (t : Tile α) (r c : Int)
    (hbuild : TileSetMetadata.build ts = .ok reg)
    (hmem : t ∈ ts.tiles)
    (hr : idxLookup .ROUND t.indices = some r)
    (hc : idxLookup .CH t.indices = some c)
    (hz : idxLookup .Z t.indices = Option.none) :
    tileKey t = .ok ⟨r, c, 0⟩ ∧ (⟨r, c, 0⟩ : TileMetadataKey) ∈ reg.keys := by
  have htk : tileKey t = .ok ⟨r, c, 0⟩ := by
    rw [tileKey, hr, hc, hz]; rfl
  refine ⟨htk, ?_⟩
  rw [TileSetMetadata.build] at hbuild
  cases hb : buildEntries ts.tiles ([] : List (TileMetadataKey × α)) with
  | error e => rw [hb] at hbuild; exact absurd hbuild (by simp)
  | ok d =>
    rw [hb] at hbuild
    have hreg : (⟨d, ts.extras⟩ : TileSetMetadata α β) = reg :=
      Except.ok.inj hbuild
    rw [← hreg]
    exact buildEntries_mem_of_tile ts.tiles [] d t ⟨r, c, 0⟩ hb hmem htk

/-- C6 witness: a tile with indices round = 1, ch = 2 and no z is keyed
(1, 2, 0) in the registry built from its singleton collection. -/
theorem default_z_witness :
    tileKey (⟨[(.ROUND, 1), (.CH, 2)], 8⟩ : Tile Nat) = .ok ⟨1, 2, 0⟩ ∧
      (⟨1, 2, 0⟩ : TileMetadataKey) ∈
        (⟨[(⟨1, 2, 0⟩, 8)], 0⟩ : TileSetMetadata Nat Nat).keys :=
  default_z ⟨[⟨[(.ROUND, 1), (.CH, 2)], 8⟩], 0⟩ ⟨[(⟨1, 2, 0⟩, 8)], 0⟩
    ⟨[(.ROUND, 1), (.CH, 2)], 8⟩ 1 2 rfl (by simp) rfl rfl rfl

/-- C5: when the tiles' (round, channel, z) keys `ks` are pairwise
distinct, construction succeeds and `keys()` returns exactly those keys —
one registry entry per tile, no more, no fewer. -/
theorem registry_completeness {α β : Type} (ts : TileSet α β)
    (ks : List TileMetadataKey)
    (hks : tileKeys ts.tiles = .ok ks)
    (hdist : ks.Pairwise (· ≠ ·)) :
    ∃ reg : TileSetMetadata α β, TileSetMetadata.build ts = .ok reg ∧
      reg.keys = ks ∧ reg.keys.length = ts.tiles.length := by
  obtain ⟨d, hd, hdk⟩ := buildEntries_complete ts.tiles ks [] hks
    (by simpa using hdist)
  refine ⟨⟨d, ts.extras⟩, ?_, ?_, ?_⟩
  · rw [TileSetMetadata.build, hd]
  · simpa [TileSetMetadata.keys] using hdk
  · rw [TileSetMetadata.keys, hdk]
    simp [tileKeys_length ts.tiles ks hks]

/-- C5 witness: two tiles with distinct keys (0, 0, 0) and (0, 1, 0) yield
a two-entry registry whose keys are exactly those two. -/
theorem registry_completeness_witness :
    ∃ reg : TileSetMetadata Nat Nat,
      TileSetMetadata.build
          (⟨[⟨[(.ROUND, 0), (.CH, 0)], 10⟩, ⟨[(.ROUND, 0), (.CH, 1)], 20⟩],
            5⟩ : TileSet Nat Nat) = .ok reg ∧
        reg.keys = [⟨0, 0, 0⟩, ⟨0, 1, 0⟩] ∧
        reg.keys.length =
          (⟨[⟨[(.ROUND, 0), (.CH, 0)], 10⟩, ⟨[(.ROUND, 0), (.CH, 1)], 20⟩],
            5⟩ : TileSet Nat Nat).tiles.length :=
  registry_completeness
    ⟨[⟨[(.ROUND, 0), (.CH, 0)], 10⟩, ⟨[(.ROUND, 0), (.CH, 1)], 20⟩], 5⟩
    [⟨0, 0, 0⟩, ⟨0, 1, 0⟩] rfl (by simp [List.pairwise_cons])

/-- C7: when two tiles produce the same key, construction still succeeds
and the registry holds the payload of the tile appearing last in iteration
order under that key (last-write-wins). -/
theorem last_write_wins {α β : Type} (ts : TileSet α β)
    (ks : List TileMetadataKey) (pre post : List (Tile α)) (tb : Tile α)
    (k : TileMetadataKey)
    (hall : tileKeys ts.tiles = .ok ks)
    (hsplit : ts.tiles = pre ++ tb :: post)
    (htb : tileKey tb = .ok k)
    (hdup : ∃ ta ∈ pre, tileKey ta = .ok k)
    (hpost : ∀ t ∈ post, ∀ k2 : TileMetadataKey, tileKey t = .ok k2 → k2 ≠ k) :
    ∃ reg : TileSetMetadata α β, TileSetMetadata.build ts = .ok reg ∧
      reg.getitem (.key k) = .ok tb.extras := by
  obtain ⟨d, hd⟩ := tileKeys_build_ok ts.tiles ks [] hall
  refine ⟨⟨d, ts.extras⟩, by rw [TileSetMetadata.build, hd], ?_⟩
  have hfind := dictFind_buildEntries ts.tiles [] d k hd
  have hlast : lastKeyExtras k ts.tiles = some tb.extras := by
    rw [hsplit, lastKeyExtras_append, lastKeyExtras,
      lastKeyExtras_none k post hpost, htb]
    simp
  rw [hlast] at hfind
  rw [TileSetMetadata.getitem]
  simp only
  rw [hfind]

/-- C7 witness: two tiles both keyed (0, 0, 0) with payloads 10 then 20
build a registry that succeeds and returns 20 for that key. -/
theorem last_write_wins_witness :
    ∃ reg : TileSetMetadata Nat Nat,
      TileSetMetadata.build
          (⟨[⟨[(.ROUND, 0), (.CH, 0)], 10⟩, ⟨[(.ROUND, 0), (.CH, 0)], 20⟩],
            0⟩ : TileSet Nat Nat) = .ok reg ∧
        reg.getitem (.key ⟨0, 0, 0⟩) =
          .ok (⟨[(.ROUND, 0), (.CH, 0)], 20⟩ : Tile Nat).extras :=
  last_write_wins
    ⟨[⟨[(.ROUND, 0), (.CH, 0)], 10⟩, ⟨[(.ROUND, 0), (.CH, 0)], 20⟩], 0⟩
    [⟨0, 0, 0⟩, ⟨0, 0, 0⟩] [⟨[(.ROUND, 0), (.CH, 0)], 10⟩] []
    ⟨[(.ROUND, 0), (.CH, 0)], 20⟩ ⟨0, 0, 0⟩ rfl rfl rfl
    ⟨⟨[(.ROUND, 0), (.CH, 0)], 10⟩, by simp, rfl⟩ (by simp)

/-- C1: saving the canonical zero-filled dataset of shape (1, 5, 2, 2, 5)
to any path in any file-system state and loading it back succeeds and
yields a dataset equivalent to the original under the full equivalence
relation (shape, dtype, axis names, values, coordinate label arrays,
attributes). -/
theorem roundtrip_zero_dataset (fs : FileStore) (path : String) :
    load path (save testDataset path fs) = .ok testDataset ∧
      ∀ d : Dataset, load path (save testDataset path fs) = .ok d →
        Dataset.equiv d testDataset = true := by
  have hload : load path (save testDataset path fs) = .ok testDataset := by
    rw [load, save, storeFind_insert_self]
  refine ⟨hload, fun d hd => ?_⟩
  rw [hload] at hd
  have : testDataset = d := Except.ok.inj hd
  rw [← this]
  exact datasetEquiv_refl testDataset

end Starfish
